import Mathlib

/-!
Shallow embedding of the Social-Monkey text-understanding pipeline:
`SlangNormalizer` (backend/app/analysis/slang_normalizer.py) and
`EmotionEngine` (backend/app/analysis/emotion_engine.py).

Modelling conventions:
* Python strings are `List Char`; `text[:n]` is `List.take n`, `text[n:]` is
  `List.drop n`.
* The slang dictionary (loaded at startup from `slang_rich_dictionary.json`,
  which is not part of the analysed sources) is a parameter: an association
  list `SlangDict` whose order is the Python dict's iteration order.
* The two black-box models (the RoBERTa span tagger and the BERTweet
  classifier) are parameters: functions returning `Except String _`, where
  `.error` stands for a raised exception.
* Python float scores are modelled as `ℚ`.
* Python truthiness of an optional string field (`entry.get('description')`)
  is: `none` or the empty string count as false.
-/

namespace SocialMonkey

/-- Python `str.lower()` (ASCII model). -/
def lower (s : List Char) : List Char := s.map Char.toLower

/-- Python `str.strip()`: remove leading and trailing whitespace. -/
def strip (s : List Char) : List Char :=
  ((s.dropWhile Char.isWhitespace).reverse.dropWhile Char.isWhitespace).reverse

/-- One value of the slang dictionary: the optional `description`,
`normalized_text` and `full_form` fields and the `variations` list. -/
structure Entry where
  description : Option (List Char)
  normalized_text : Option (List Char)
  full_form : Option (List Char)
  variations : List (List Char)
deriving Repr, DecidableEq

/-- The slang dictionary `SlangNormalizer._slang_dict`. -/
abbrev SlangDict := List (List Char × Entry)

/-- Python truthiness of an optional string. -/
def truthy : Option (List Char) → Bool
  | none => false
  | some s => !s.isEmpty

/-- `SlangNormalizer._exists_in_dictionary` (slang_normalizer.py lines
150-172): direct key lookup, then a scan of every entry's case-folded
`variations` list. -/
def exists_in_dictionary (dict : SlangDict) (slang : List Char) : Bool :=
  let sl := lower slang
  if dict.any (fun kv => kv.1 == sl) then true
  else dict.any (fun kv => (kv.2.variations.map lower).contains sl)

/-- `slang_lower in self._slang_dict` followed by `dict[slang_lower]`:
first entry whose key equals the given (already lowercased) term. -/
def findEntry (dict : SlangDict) (k : List Char) : Option Entry :=
  match dict with
  | [] => none
  | kv :: rest => if kv.1 == k then some kv.2 else findEntry rest k

/-- The variations loop of `SlangNormalizer._lookup_slang` (lines 198-207):
scan entries in order; on the first entry whose case-folded variations
contain the term, return its `description`/`normalized_text`/`full_form`
by priority, or keep scanning if the matching entry has none of the three;
finally fall back to the term itself. -/
def variantScan (sl slang : List Char) : SlangDict → List Char
  | [] => slang
  | kv :: rest =>
    if (kv.2.variations.map lower).contains sl then
      if truthy kv.2.description then kv.2.description.getD []
      else if truthy kv.2.normalized_text then kv.2.normalized_text.getD []
      else if truthy kv.2.full_form then kv.2.full_form.getD []
      else variantScan sl slang rest
    else variantScan sl slang rest

/-- `SlangNormalizer._lookup_slang` (lines 174-210). If the direct entry has
none of the three fields the code falls through to the variations loop. -/
def lookup_slang (dict : SlangDict) (slang : List Char) : List Char :=
  let sl := lower slang
  match findEntry dict sl with
  | some e =>
    if truthy e.description then e.description.getD []
    else if truthy e.normalized_text then e.normalized_text.getD []
    else if truthy e.full_form then e.full_form.getD []
    else variantScan sl slang dict
  | none => variantScan sl slang dict

/-- One aggregated span returned by the RoBERTa NER pipeline: the `word`,
`start`, `end` and `score` fields of one result. `end` is a Lean keyword,
so the field is called `stop`. -/
structure TagResult where
  word : List Char
  start : Nat
  stop : Nat
  score : ℚ
deriving Repr, DecidableEq

/-- One element of the list built by `detect_slang`: the dictionaries
appended at slang_normalizer.py lines 135-142. `end` is a Lean keyword, so
the field is called `stop`. -/
structure Detection where
  text : List Char
  start : Nat
  stop : Nat
  normalized : List Char
  original : List Char
  confidence : ℚ
deriving Repr, DecidableEq

/-- The span tagger model: raw text to aggregated spans, `.error` standing
for a raised exception. -/
abbrev Tagger := List Char → Except String (List TagResult)

/-- The result loop of `SlangNormalizer.detect_slang` (lines 117-144):
strip each word, remove the RoBERTa `Ġ` artifact, lowercase, keep the span
only if `_exists_in_dictionary` accepts it, and attach the looked-up
normalized form. -/
def processResults (dict : SlangDict) : List TagResult → List Detection
  | [] => []
  | r :: rest =>
    let slang_term := (strip r.word).filter (fun c => c ≠ 'Ġ')
    let slang_lower := lower slang_term
    if exists_in_dictionary dict slang_lower then
      ⟨slang_term, r.start, r.stop, lookup_slang dict slang_lower,
        slang_lower, r.score⟩ :: processResults dict rest
    else processResults dict rest

/-- `SlangNormalizer.detect_slang` (lines 90-148): empty list when no
detector is loaded, empty list when the model call raises, otherwise the
validated detections. -/
def detect_slang (dict : SlangDict) (slang_detector : Option Tagger)
    (text : List Char) : List Detection :=
  match slang_detector with
  | none => []
  | some f =>
    match f text with
    | .error _ => []
    | .ok results => processResults dict results

/-- The replacement string of `normalize_text` (lines 246-251):
the normalized form alone, or the surface form followed by the normalized
form in parentheses when `keep_original` is set. -/
def replacement (keep_original : Bool) (d : Detection) : List Char :=
  if keep_original then d.text ++ " (".data ++ d.normalized ++ ")".data
  else d.normalized

/-- One splice of the rewrite loop (line 254):
`normalized_text[:start] + new_text + normalized_text[end:]`. -/
def spliceStep (keep_original : Bool) (acc : List Char) (d : Detection) :
    List Char :=
  acc.take d.start ++ replacement keep_original d ++ acc.drop d.stop

/-- Insertion step of a stable sort by `start` descending, modelling
`sorted(detected, key=lambda x: x['start'], reverse=True)`. -/
def insertDesc (d : Detection) : List Detection → List Detection
  | [] => [d]
  | e :: es => if e.start ≤ d.start then d :: e :: es else e :: insertDesc d es

/-- Stable sort by `start` descending (line 237). -/
def sortDesc : List Detection → List Detection
  | [] => []
  | d :: ds => insertDesc d (sortDesc ds)

/-- `SlangNormalizer.normalize_text` (lines 212-256). -/
def normalize_text (dict : SlangDict) (slang_detector : Option Tagger)
    (keep_original : Bool) (text : List Char) :
    List Char × List Detection :=
  let detected := detect_slang dict slang_detector text
  if detected.isEmpty then (text, [])
  else
    let detected_sorted := sortDesc detected
    (detected_sorted.foldl (spliceStep keep_original) text, detected)

/-- Single-pass rewriting against original offsets: walk the detections in
ascending offset order, copying the gap before each span, then its
replacement, and finally the tail of the text. -/
def onePass (keep_original : Bool) (t : List Char) :
    Nat → List Detection → List Char
  | pos, [] => t.drop pos
  | pos, d :: ds =>
    (t.drop pos).take (d.start - pos) ++ replacement keep_original d ++
      onePass keep_original t d.stop ds

/-- Overlap-free, in-bounds detections in ascending offset order: each span
is nonempty, starts at or after the running position, and the final
position lies within the text. -/
def chainOK (t : List Char) : Nat → List Detection → Bool
  | pos, [] => decide (pos ≤ t.length)
  | pos, d :: ds =>
    decide (pos ≤ d.start) && decide (d.start < d.stop) && chainOK t d.stop ds

/-- The emotion classifier model: text to per-label scores, `.error`
standing for a raised exception. -/
abbrev Classifier := List Char → Except String (List (String × ℚ))

/-- The positive category subset of
`EmotionEngine._calculate_sentiment_score` (line 159). -/
def positive_emotions : List String :=
  ["admiration", "amusement", "approval", "caring", "desire", "excitement",
   "gratitude", "joy", "love", "optimism", "pride", "relief"]

/-- The negative category subset (line 160). -/
def negative_emotions : List String :=
  ["anger", "annoyance", "disappointment", "disapproval", "disgust",
   "embarrassment", "fear", "grief", "nervousness", "remorse", "sadness"]

/-- Python `scores.get(e, 0)` over the score map. -/
def getScore (scores : List (String × ℚ)) (e : String) : ℚ :=
  match scores with
  | [] => 0
  | kv :: rest => if kv.1 == e then kv.2 else getScore rest e

/-- `EmotionEngine._calculate_sentiment_score` (lines 155-167):
positive-subset sum minus negative-subset sum. -/
def calculate_sentiment_score (scores : List (String × ℚ)) : ℚ :=
  (positive_emotions.map (getScore scores)).sum -
    (negative_emotions.map (getScore scores)).sum

/-- Python `max(scores, key=scores.get)` starting from a first candidate:
keeps the first key whose value is maximal (a later key replaces the
current one only when strictly greater). -/
def maxKeyGo (k : String) (v : ℚ) : List (String × ℚ) → String
  | [] => k
  | kv :: rest => if v < kv.2 then maxKeyGo kv.1 kv.2 rest else maxKeyGo k v rest

/-- Python `max(scores, key=scores.get)`; `none` models the `ValueError`
raised on an empty map. -/
def maxKey : List (String × ℚ) → Option String
  | [] => none
  | kv :: rest => some (maxKeyGo kv.1 kv.2 rest)

/-- Dominant-emotion selection of `EmotionEngine.analyze` (lines 113-126):
the highest-scoring label among those meeting the threshold, or the
highest-scoring label overall when none does. -/
def selectDominant (threshold : ℚ) (all_scores : List (String × ℚ)) :
    Option String :=
  let significant_scores := all_scores.filter (fun kv => threshold ≤ kv.2)
  if !significant_scores.isEmpty then maxKey significant_scores
  else maxKey all_scores

/-- The loaded slang-normalization component: dictionary plus optional
tagger model. -/
structure NormalizerHandle where
  dict : SlangDict
  slang_detector : Option Tagger

/-- The state built by `EmotionEngine.__init__`: the classifier and the
optional slang normalizer. -/
structure EngineState where
  classifier : Classifier
  slang_normalizer : Option NormalizerHandle

/-- `EmotionEngine.__init__` (emotion_engine.py lines 31-57): a classifier
construction failure is re-raised; a slang-normalizer construction failure
is caught, logged, and replaced by `None`. -/
def emotionEngineInit (classifierCtor : Except String Classifier)
    (normalizerCtor : Except String NormalizerHandle) :
    Except String EngineState :=
  match classifierCtor with
  | .error e => .error e
  | .ok c => .ok ⟨c, normalizerCtor.toOption⟩

/-- The dictionary returned by `EmotionEngine.analyze`. -/
structure AnalysisResult where
  scores : List (String × ℚ)
  dominant : String
  sentiment_score : ℚ
  slang_detected : List Detection
  normalized_text : List Char
  original_text : List Char
deriving Repr, DecidableEq

/-- `EmotionEngine.analyze` (lines 59-153). Blank input short-circuits to
the neutral result. Otherwise: optional slang normalization (the local
`text` is rebound to the normalized text only when detections exist),
truncation to 500 characters, classification, dominant selection and
sentiment derivation; a raised exception inside the guarded block (a
classifier fault, or `max` on an empty score map) yields the sentinel
result built from the current `text` variable. -/
def analyze (engine : EngineState) (threshold : ℚ) (normalize_slang : Bool)
    (text : List Char) : AnalysisResult :=
  if text.isEmpty || (strip text).isEmpty then
    ⟨[], "neutral", 0, [], text, text⟩
  else
    let original_text := text
    let step1 : List Char × List Detection × List Char :=
      match engine.slang_normalizer, normalize_slang with
      | some nh, true =>
        let p := normalize_text nh.dict nh.slang_detector false text
        if p.2.isEmpty then (p.1, p.2, text) else (p.1, p.2, p.1)
      | _, _ => (text, [], text)
    let normalized_text := step1.1
    let slang_detected := step1.2.1
    let text2 := step1.2.2
    let truncated_text := text2.take 500
    match engine.classifier truncated_text with
    | .error _ => ⟨[], "error", 0, [], text2, text2⟩
    | .ok all_scores =>
      match selectDominant threshold all_scores with
      | none => ⟨[], "error", 0, [], text2, text2⟩
      | some dominant =>
        ⟨all_scores, dominant, calculate_sentiment_score all_scores,
          slang_detected, normalized_text, original_text⟩

/-- Lexicon membership as the spec states it: the case-folded term is a
key, or a case-folded member of some entry's variations list. -/
def inLexicon (dict : SlangDict) (term : List Char) : Prop :=
  (∃ kv ∈ dict, kv.1 = lower term) ∨
    ∃ kv ∈ dict, lower term ∈ kv.2.variations.map lower

/-- Modelled from the spec: the resolution priority of §4.3, selecting the
gloss, then the normalized phrase, then the expanded form; a field
"provides" a value only when it is present and nonempty (Python
truthiness). -/
def resolvePriority (e : Entry) : Option (List Char) :=
  if truthy e.description then e.description
  else if truthy e.normalized_text then e.normalized_text
  else if truthy e.full_form then e.full_form
  else none

/-- A trivial classifier payload used for concrete instantiations. -/
def trivClassifier : Classifier := fun _ => .ok []

/-- An engine whose classifier always raises; the blank-input path never
reaches it. -/
def blankEngine : EngineState := ⟨fun _ => .error "must not run", none⟩

/-- C7: for every input that is empty or whitespace-only, `analyze`
short-circuits and returns the empty score map, dominant label `"neutral"`,
sentiment `0.0`, empty slang list, and the input itself as both
`normalized_text` and `original_text`; the engine (hence the classifier
model) is arbitrary, so no model is invoked. -/
theorem analyze_blank_input_short_circuit (engine : EngineState) (th : ℚ)
    (ns : Bool) (text : List Char) (h : (strip text).isEmpty = true) :
    analyze engine th ns text = ⟨[], "neutral", 0, [], text, text⟩ := by
  unfold analyze
  rw [h]
  simp

/-- Witness for C7 at the three-space input. -/
theorem analyze_blank_input_short_circuit_witness :
    analyze blankEngine 1 true ("   ".data)
      = ⟨[], "neutral", 0, [], "   ".data, "   ".data⟩ :=
  analyze_blank_input_short_circuit blankEngine 1 true ("   ".data)
    (by decide)

/-- C9 counterexample: a slang-model construction failure is not fatal.
With a successfully constructed classifier and a failing slang-normalizer
constructor, `EmotionEngine.__init__` returns a usable engine whose
normalizer slot is `None` instead of propagating the exception. -/
theorem slang_ctor_failure_not_fatal :
    emotionEngineInit (.ok trivClassifier) (.error "slang model load failure")
      = .ok ⟨trivClassifier, none⟩ := rfl

/-- C9 (amended): a classifier construction failure is fatal (re-raised to
the caller that triggers construction), while a slang-model construction
failure is caught by the orchestrator, which continues with slang
normalization disabled. -/
theorem ctor_failure_classifier_fatal_slang_degraded
    (cc : Except String Classifier) (nc : Except String NormalizerHandle)
    (c : Classifier) (msg : String) :
    (cc = .error msg → emotionEngineInit cc nc = .error msg) ∧
    (cc = .ok c → emotionEngineInit cc nc = .ok ⟨c, nc.toOption⟩) := by
  constructor
  · intro h; rw [h]; rfl
  · intro h; rw [h]; rfl

/-- Witness for amended C9: a failing classifier constructor propagates its
exception. -/
theorem ctor_failure_classifier_fatal_slang_degraded_witness :
    emotionEngineInit (.error "classifier load failure")
        (.error "slang model load failure")
      = .error "classifier load failure" :=
  (ctor_failure_classifier_fatal_slang_degraded
    (.error "classifier load failure") (.error "slang model load failure")
    trivClassifier "classifier load failure").1 rfl

/-- A dictionary containing a digits-only slang key, as a rich slang
lexicon may (`"420"`). -/
def dict420 : SlangDict :=
  [("420".data, ⟨some ("marijuana related".data), none, none, []⟩)]

/-- A tagger that proposes the digits-only candidate span `"420"`. -/
def tagger420 : Tagger := fun _ => .ok [⟨"420".data, 0, 3, 1⟩]

/-- C2: `detect_slang` applies no pattern-based rejection at all — its only
filter is the dictionary-existence check. A candidate span consisting
solely of digits, which the spec's validator must reject independently of
the lexicon check, is surfaced as a detection as soon as it is a lexicon
key. -/
theorem detect_slang_accepts_digit_only_lexicon_term :
    detect_slang dict420 (some tagger420) ("420 fest".data)
      = [⟨"420".data, 0, 3, "marijuana related".data, "420".data, 1⟩] ∧
    ("420".data.all Char.isDigit) = true := by
  constructor
  · decide
  · decide

theorem getScore_skip (s1 s2 : List (String × ℚ)) (k e : String) (v : ℚ)
    (h : e ≠ k) :
    getScore (s1 ++ (k, v) :: s2) e = getScore (s1 ++ s2) e := by
  induction s1 with
  | nil =>
    simp only [List.nil_append, getScore]
    have hk : (k == e) = false := beq_eq_false_iff_ne.mpr fun hk => h hk.symm
    simp [hk]
  | cons a s1 ih =>
    simp only [List.cons_append, getScore]
    cases ha : a.1 == e <;> simp [ha, ih]

/-- C6: the derived sentiment score is the positive-subset sum minus the
negative-subset sum of the score map, and a category belonging to neither
subset contributes nothing: inserting such an entry anywhere in the map
leaves the result unchanged. -/
theorem sentiment_pos_minus_neg_and_neutral_irrelevant
    (scores s1 s2 : List (String × ℚ)) (k : String) (v : ℚ)
    (h1 : k ∉ positive_emotions) (h2 : k ∉ negative_emotions) :
    calculate_sentiment_score scores
      = (positive_emotions.map (getScore scores)).sum -
          (negative_emotions.map (getScore scores)).sum ∧
    calculate_sentiment_score (s1 ++ (k, v) :: s2)
      = calculate_sentiment_score (s1 ++ s2) := by
  refine ⟨rfl, ?_⟩
  unfold calculate_sentiment_score
  have hp : positive_emotions.map (getScore (s1 ++ (k, v) :: s2))
      = positive_emotions.map (getScore (s1 ++ s2)) :=
    List.map_congr_left fun e he =>
      getScore_skip s1 s2 k e v fun hek => h1 (hek ▸ he)
  have hn : negative_emotions.map (getScore (s1 ++ (k, v) :: s2))
      = negative_emotions.map (getScore (s1 ++ s2)) :=
    List.map_congr_left fun e he =>
      getScore_skip s1 s2 k e v fun hek => h2 (hek ▸ he)
  rw [hp, hn]

/-- Witness for C6: inserting a `neutral` entry does not change the
sentiment score. -/
theorem sentiment_neutral_irrelevant_witness :
    calculate_sentiment_score [("neutral", 1), ("joy", 1)]
      = calculate_sentiment_score [("joy", 1)] :=
  (sentiment_pos_minus_neg_and_neutral_irrelevant [("joy", 1)] []
    [("joy", 1)] "neutral" 1 (by decide) (by decide)).2

theorem getScore_mem_bounds (scores : List (String × ℚ))
    (h : ∀ kv ∈ scores, 0 ≤ kv.2 ∧ kv.2 ≤ 1) (e : String) :
    0 ≤ getScore scores e ∧ getScore scores e ≤ 1 := by
  induction scores with
  | nil => exact ⟨le_refl 0, zero_le_one⟩
  | cons a l ih =>
    simp only [getScore]
    cases ha : a.1 == e
    · simp only [Bool.false_eq_true, if_false]
      exact ih fun kv hkv => h kv (List.mem_cons_of_mem a hkv)
    · simp only [if_true]
      exact h a (List.mem_cons_self a l)

theorem sum_getScore_bounds (scores : List (String × ℚ))
    (h : ∀ kv ∈ scores, 0 ≤ kv.2 ∧ kv.2 ≤ 1) (l : List String) :
    0 ≤ (l.map (getScore scores)).sum ∧
      (l.map (getScore scores)).sum ≤ (l.length : ℚ) := by
  induction l with
  | nil => simp
  | cons e l ih =>
    simp only [List.map_cons, List.sum_cons, List.length_cons]
    have he := getScore_mem_bounds scores h e
    constructor
    · exact add_nonneg he.1 ih.1
    · push_cast
      linarith [he.2, ih.2]

/-- C10: whenever every value of the score map lies in `[0, 1]`, the
sentiment score lies in `[-11, 12]` — the positive subset has 12
categories and the negative subset 11 — however many other categories the
map carries. -/
theorem sentiment_score_bounded (scores : List (String × ℚ))
    (h : ∀ kv ∈ scores, 0 ≤ kv.2 ∧ kv.2 ≤ 1) :
    -11 ≤ calculate_sentiment_score scores ∧
      calculate_sentiment_score scores ≤ 12 := by
  have hp := sum_getScore_bounds scores h positive_emotions
  have hn := sum_getScore_bounds scores h negative_emotions
  have hpl : ((positive_emotions.length : ℚ)) = 12 := by
    norm_num [positive_emotions]
  have hnl : ((negative_emotions.length : ℚ)) = 11 := by
    norm_num [negative_emotions]
  rw [hpl] at hp
  rw [hnl] at hn
  unfold calculate_sentiment_score
  constructor
  · linarith [hp.1, hn.2]
  · linarith [hp.2, hn.1]

/-- Witness for C10 at a one-entry score map. -/
theorem sentiment_score_bounded_witness :
    -11 ≤ calculate_sentiment_score [("joy", 1)] ∧
      calculate_sentiment_score [("joy", 1)] ≤ 12 :=
  sentiment_score_bounded [("joy", 1)] (by decide)

theorem resolvePriority_none_flags (e : Entry)
    (h : resolvePriority e = none) :
    truthy e.description = false ∧ truthy e.normalized_text = false ∧
      truthy e.full_form = false := by
  unfold resolvePriority at h
  split_ifs at h with h1 h2 h3
  · rw [h] at h1; simp [truthy] at h1
  · rw [h] at h2; simp [truthy] at h2
  · rw [h] at h3; simp [truthy] at h3
  · exact ⟨Bool.not_eq_true _ ▸ Bool.of_not_eq_true h1,
      Bool.not_eq_true _ ▸ Bool.of_not_eq_true h2,
      Bool.not_eq_true _ ▸ Bool.of_not_eq_true h3⟩

theorem variantScan_fallback (sl slang : List Char) :
    ∀ dict : SlangDict,
      (∀ kv ∈ dict, sl ∈ kv.2.variations.map lower →
        resolvePriority kv.2 = none) →
      variantScan sl slang dict = slang := by
  intro dict
  induction dict with
  | nil => intro _; rfl
  | cons kv rest ih =>
    intro h
    simp only [variantScan]
    cases hc : (kv.2.variations.map lower).contains sl
    · simp only [Bool.false_eq_true, if_false]
      exact ih fun kv2 hkv2 hm => h kv2 (List.mem_cons_of_mem kv hkv2) hm
    · have hmem : sl ∈ kv.2.variations.map lower := by simpa using hc
      have hres :=
        resolvePriority_none_flags kv.2 (h kv (List.mem_cons_self kv rest) hmem)
      simp only [if_true, hres.1, hres.2.1, hres.2.2, Bool.false_eq_true,
        if_false]
      exact ih fun kv2 hkv2 hm => h kv2 (List.mem_cons_of_mem kv hkv2) hm

/-- C4: `_lookup_slang` resolves a directly reached lexicon entry by the
priority gloss, then normalized phrase, then expanded form (a field counts
only when present and nonempty), and returns the original term verbatim
when no entry — reached directly or via a case-folded variant — provides
any of the three. -/
theorem lookup_slang_priority_and_fallback (dict : SlangDict)
    (slang : List Char) (e : Entry) (v : List Char) :
    (findEntry dict (lower slang) = some e → resolvePriority e = some v →
      lookup_slang dict slang = v) ∧
    ((∀ e2, findEntry dict (lower slang) = some e2 →
        resolvePriority e2 = none) →
     (∀ kv ∈ dict, lower slang ∈ kv.2.variations.map lower →
        resolvePriority kv.2 = none) →
      lookup_slang dict slang = slang) := by
  constructor
  · intro hf hr
    simp only [lookup_slang]
    rw [hf]
    unfold resolvePriority at hr
    split_ifs at hr with h1 h2 h3
    · rw [hr] at h1
      simp [hr, h1]
    · simp only [Bool.not_eq_true] at h1
      rw [hr] at h2
      simp [h1, hr, h2]
    · simp only [Bool.not_eq_true] at h1 h2
      rw [hr] at h3
      simp [h1, h2, hr, h3]
  · intro hd hv
    simp only [lookup_slang]
    cases hf : findEntry dict (lower slang) with
    | none => exact variantScan_fallback (lower slang) slang dict hv
    | some e2 =>
      have hres := resolvePriority_none_flags e2 (hd e2 hf)
      simp only [hres.1, hres.2.1, hres.2.2, Bool.false_eq_true, if_false]
      exact variantScan_fallback (lower slang) slang dict hv

/-- A one-entry dictionary for concrete resolution. -/
def dictFR : SlangDict := [("fr".data, ⟨some ("for real".data), none, none, []⟩)]

/-- Witness for C4: a term reached directly (after case folding) resolves
to the entry's gloss. -/
theorem lookup_slang_priority_and_fallback_witness :
    lookup_slang dictFR ("FR".data) = "for real".data :=
  (lookup_slang_priority_and_fallback dictFR ("FR".data)
    ⟨some ("for real".data), none, none, []⟩ ("for real".data)).1
    (by decide) (by decide)

theorem exists_in_dictionary_inLexicon (dict : SlangDict) (s : List Char)
    (h : exists_in_dictionary dict s = true) : inLexicon dict s := by
  unfold exists_in_dictionary at h
  by_cases h1 : dict.any (fun kv => kv.1 == lower s) = true
  · left
    obtain ⟨kv, hkv, hb⟩ := List.any_eq_true.mp h1
    exact ⟨kv, hkv, by simpa using hb⟩
  · right
    rw [if_neg h1] at h
    obtain ⟨kv, hkv, hb⟩ := List.any_eq_true.mp h
    exact ⟨kv, hkv, by simpa using hb⟩

theorem processResults_in_lexicon (dict : SlangDict) :
    ∀ (rs : List TagResult) (d : Detection), d ∈ processResults dict rs →
      inLexicon dict d.original := by
  intro rs
  induction rs with
  | nil => intro d hd; simp [processResults] at hd
  | cons r rest ih =>
    intro d hd
    simp only [processResults] at hd
    by_cases he : exists_in_dictionary dict
        (lower ((strip r.word).filter (fun c => c ≠ 'Ġ'))) = true
    · rw [if_pos he] at hd
      rcases List.mem_cons.mp hd with rfl | hd2
      · exact exists_in_dictionary_inLexicon dict _ he
      · exact ih d hd2
    · rw [if_neg he] at hd
      exact ih d hd

theorem normalize_text_snd (dict : SlangDict) (tg : Option Tagger)
    (keep : Bool) (text : List Char) :
    (normalize_text dict tg keep text).2 = detect_slang dict tg text := by
  unfold normalize_text
  by_cases hde : (detect_slang dict tg text).isEmpty = true
  · simp [hde, List.isEmpty_iff.mp hde]
  · simp [hde]

theorem analyze_slang_detected (engine : EngineState) (th : ℚ) (ns : Bool)
    (text : List Char) :
    (analyze engine th ns text).slang_detected = [] ∨
    ∃ nh, engine.slang_normalizer = some nh ∧
      (analyze engine th ns text).slang_detected
        = (normalize_text nh.dict nh.slang_detector false text).2 := by
  obtain ⟨cls, sn⟩ := engine
  unfold analyze
  by_cases hb : (text.isEmpty || (strip text).isEmpty) = true
  · left; simp [hb]
  · rw [if_neg hb]
    dsimp only
    cases sn with
    | none =>
      cases hc : cls (text.take 500) with
      | error e => left; simp [hc]
      | ok all_scores =>
        cases hsd : selectDominant th all_scores with
        | none => left; simp [hc, hsd]
        | some dom => left; simp [hc, hsd]
    | some nh =>
      cases ns with
      | false =>
        cases hc : cls (text.take 500) with
        | error e => left; simp [hc]
        | ok all_scores =>
          cases hsd : selectDominant th all_scores with
          | none => left; simp [hc, hsd]
          | some dom => left; simp [hc, hsd]
      | true =>
        by_cases hp :
            (normalize_text nh.dict nh.slang_detector false text).2.isEmpty
              = true
        · cases hc : cls (text.take 500) with
          | error e => left; simp [hp, hc]
          | ok all_scores =>
            cases hsd : selectDominant th all_scores with
            | none => left; simp [hp, hc, hsd]
            | some dom =>
              right
              exact ⟨nh, rfl, by simp [hp, hc, hsd]⟩
        · cases hc : cls
              ((normalize_text nh.dict nh.slang_detector false text).1.take
                500) with
          | error e => left; simp [hp, hc]
          | ok all_scores =>
            cases hsd : selectDominant th all_scores with
            | none => left; simp [hp, hc, hsd]
            | some dom =>
              right
              exact ⟨nh, rfl, by simp [hp, hc, hsd]⟩

/-- C1: every detection returned by `detect_slang` — and hence every element
of the `slang_detected` list returned by `normalize_text` and by
`EmotionEngine.analyze` — carries a canonical term (`original`) whose
case-folded form is a key of the loaded slang dictionary or a case-folded
member of some entry's variations list. -/
theorem detections_exist_in_lexicon (dict : SlangDict) (tg : Option Tagger)
    (cls : Classifier) (th : ℚ) (ns keep : Bool) (text : List Char)
    (d : Detection) :
    (d ∈ detect_slang dict tg text → inLexicon dict d.original) ∧
    (d ∈ (normalize_text dict tg keep text).2 → inLexicon dict d.original) ∧
    (d ∈ (analyze ⟨cls, some ⟨dict, tg⟩⟩ th ns text).slang_detected →
      inLexicon dict d.original) := by
  have hdet : ∀ d2 : Detection, d2 ∈ detect_slang dict tg text →
      inLexicon dict d2.original := by
    intro d2 hd
    unfold detect_slang at hd
    cases tg with
    | none => simp at hd
    | some f =>
      dsimp only at hd
      cases hres : f text with
      | error e => rw [hres] at hd; simp at hd
      | ok rs => rw [hres] at hd; exact processResults_in_lexicon dict rs d2 hd
  refine ⟨hdet d, ?_, ?_⟩
  · intro hd
    rw [normalize_text_snd dict tg keep text] at hd
    exact hdet d hd
  · intro hd
    rcases analyze_slang_detected ⟨cls, some ⟨dict, tg⟩⟩ th ns text with
      hz | ⟨nh, hnh, heq⟩
    · rw [hz] at hd; simp at hd
    · have hnh2 : nh = ⟨dict, tg⟩ := by
        simpa using hnh.symm
      rw [heq, hnh2, normalize_text_snd dict tg false text] at hd
      exact hdet d hd

/-- Witness for C1: the detection produced for `"fr"` carries a canonical
term present in the dictionary. -/
theorem detections_exist_in_lexicon_witness :
    inLexicon dictFR ("fr".data) :=
  (detections_exist_in_lexicon dictFR
    (some (fun _ => .ok [⟨"fr".data, 0, 2, 1⟩])) trivClassifier 1 true false
    ("fr ok".data)
    ⟨"fr".data, 0, 2, "for real".data, "fr".data, 1⟩).1 (by decide)

theorem maxKeyGo_spec :
    ∀ (l : List (String × ℚ)) (k : String) (v : ℚ),
      ∃ w : ℚ, (maxKeyGo k v l = k ∧ w = v ∨ (maxKeyGo k v l, w) ∈ l) ∧
        v ≤ w ∧ ∀ kv ∈ l, kv.2 ≤ w := by
  intro l
  induction l with
  | nil => intro k v; exact ⟨v, Or.inl ⟨rfl, rfl⟩, le_refl v, by simp⟩
  | cons a rest ih =>
    intro k v
    simp only [maxKeyGo]
    by_cases hlt : v < a.2
    · rw [if_pos hlt]
      obtain ⟨w, hmem, hle, hbound⟩ := ih a.1 a.2
      refine ⟨w, ?_, le_of_lt (lt_of_lt_of_le hlt hle), ?_⟩
      · rcases hmem with ⟨hk, hw⟩ | hmem
        · right; rw [hk, hw]; exact List.mem_cons_self a rest
        · right; exact List.mem_cons_of_mem a hmem
      · intro kv hkv
        rcases List.mem_cons.mp hkv with rfl | hkv2
        · exact hle
        · exact hbound kv hkv2
    · rw [if_neg hlt]
      obtain ⟨w, hmem, hle, hbound⟩ := ih k v
      refine ⟨w, ?_, hle, ?_⟩
      · rcases hmem with ⟨hk, hw⟩ | hmem
        · exact Or.inl ⟨hk, hw⟩
        · exact Or.inr (List.mem_cons_of_mem a hmem)
      · intro kv hkv
        rcases List.mem_cons.mp hkv with rfl | hkv2
        · exact le_trans (le_of_not_lt hlt) hle
        · exact hbound kv hkv2

theorem maxKey_spec (l : List (String × ℚ)) (h : l ≠ []) :
    ∃ k w, maxKey l = some k ∧ (k, w) ∈ l ∧ ∀ kv ∈ l, kv.2 ≤ w := by
  cases l with
  | nil => exact absurd rfl h
  | cons a rest =>
    obtain ⟨w, hmem, hle, hbound⟩ := maxKeyGo_spec rest a.1 a.2
    refine ⟨maxKeyGo a.1 a.2 rest, w, rfl, ?_, ?_⟩
    · rcases hmem with ⟨hk, hw⟩ | hmem
      · rw [hk, hw]; exact List.mem_cons_self a rest
      · exact List.mem_cons_of_mem a hmem
    · intro kv hkv
      rcases List.mem_cons.mp hkv with rfl | hkv2
      · exact hle
      · exact hbound kv hkv2

/-- C5: on a nonempty score map a dominant label is always produced; it is
the highest-scoring label among those meeting the threshold when that set
is nonempty, and the highest-scoring label overall otherwise. -/
theorem dominant_selection_spec (th : ℚ) (scores : List (String × ℚ))
    (h : scores ≠ []) :
    ∃ d, selectDominant th scores = some d ∧
      (((scores.filter fun kv => th ≤ kv.2).isEmpty = false →
        ∃ v, (d, v) ∈ (scores.filter fun kv => th ≤ kv.2) ∧
          ∀ kv ∈ (scores.filter fun kv => th ≤ kv.2), kv.2 ≤ v) ∧
       ((scores.filter fun kv => th ≤ kv.2).isEmpty = true →
        ∃ v, (d, v) ∈ scores ∧ ∀ kv ∈ scores, kv.2 ≤ v)) := by
  unfold selectDominant
  by_cases hf : (scores.filter fun kv => th ≤ kv.2).isEmpty = true
  · obtain ⟨k, w, hmk, hmem, hbound⟩ := maxKey_spec scores h
    refine ⟨k, by simp [hf, hmk], ?_, ?_⟩
    · intro hcontra
      rw [hf] at hcontra
      cases hcontra
    · intro _
      exact ⟨w, hmem, hbound⟩
  · rw [Bool.not_eq_true] at hf
    have hne : (scores.filter fun kv => th ≤ kv.2) ≠ [] :=
      List.isEmpty_eq_false.mp hf
    obtain ⟨k, w, hmk, hmem, hbound⟩ :=
      maxKey_spec (scores.filter fun kv => th ≤ kv.2) hne
    refine ⟨k, by simp [hf, hmk], ?_, ?_⟩
    · intro _
      exact ⟨w, hmem, hbound⟩
    · intro hcontra
      simp [hcontra] at hf

/-- Witness for C5: with threshold 1, only `joy` is significant and is
selected as dominant. -/
theorem dominant_selection_spec_witness :
    ∃ d, selectDominant 1 [("joy", (1 : ℚ)), ("anger", 0)] = some d ∧
      ((([("joy", (1 : ℚ)), ("anger", 0)].filter
          fun kv => (1 : ℚ) ≤ kv.2).isEmpty = false →
        ∃ v, (d, v) ∈ ([("joy", (1 : ℚ)), ("anger", 0)].filter
            fun kv => (1 : ℚ) ≤ kv.2) ∧
          ∀ kv ∈ ([("joy", (1 : ℚ)), ("anger", 0)].filter
            fun kv => (1 : ℚ) ≤ kv.2), kv.2 ≤ v) ∧
       (([("joy", (1 : ℚ)), ("anger", 0)].filter
          fun kv => (1 : ℚ) ≤ kv.2).isEmpty = true →
        ∃ v, (d, v) ∈ [("joy", (1 : ℚ)), ("anger", 0)] ∧
          ∀ kv ∈ [("joy", (1 : ℚ)), ("anger", 0)], kv.2 ≤ v)) :=
  dominant_selection_spec 1 [("joy", 1), ("anger", 0)] (by decide)

/-- C8: a model fault after initialization is recovered locally: a tagger
fault makes `detect_slang` return the empty list, and a classifier fault
makes `analyze` return the sentinel result with empty scores, dominant
label `"error"`, sentiment `0.0` and an empty slang list. -/
theorem inference_fault_recovery (dict : SlangDict) (f : Tagger)
    (text : List Char) (msgT : String) (engine : EngineState) (th : ℚ)
    (ns : Bool) (msgC : String)
    (hT : f text = .error msgT)
    (hC : ∀ s : List Char, engine.classifier s = .error msgC)
    (hW : (text.isEmpty || (strip text).isEmpty) = false) :
    detect_slang dict (some f) text = [] ∧
    (analyze engine th ns text).scores = [] ∧
    (analyze engine th ns text).dominant = "error" ∧
    (analyze engine th ns text).sentiment_score = 0 ∧
    (analyze engine th ns text).slang_detected = [] := by
  obtain ⟨cls, sn⟩ := engine
  simp only at hC
  refine ⟨?_, ?_, ?_, ?_, ?_⟩
  · simp only [detect_slang]
    rw [hT]
  all_goals simp [analyze, hW, hC]

/-- A tagger whose inference always raises. -/
def failTagger : Tagger := fun _ => .error "tagger fault"

/-- An engine whose classifier inference always raises. -/
def failEngine : EngineState := ⟨fun _ => .error "classifier fault", none⟩

/-- Witness for C8 at the input `"hi"`. -/
theorem inference_fault_recovery_witness :
    detect_slang [] (some failTagger) ("hi".data) = [] ∧
    (analyze failEngine 1 true ("hi".data)).scores = [] ∧
    (analyze failEngine 1 true ("hi".data)).dominant = "error" ∧
    (analyze failEngine 1 true ("hi".data)).sentiment_score = 0 ∧
    (analyze failEngine 1 true ("hi".data)).slang_detected = [] :=
  inference_fault_recovery [] failTagger ("hi".data) "tagger fault"
    failEngine 1 true "classifier fault" rfl (fun _ => rfl) (by decide)

theorem chainOK_le (t : List Char) :
    ∀ (l : List Detection) (q : Nat), chainOK t q l = true → q ≤ t.length := by
  intro l
  induction l with
  | nil => intro q h; simpa [chainOK] using h
  | cons d ds ih =>
    intro q h
    simp only [chainOK, Bool.and_eq_true, decide_eq_true_eq] at h
    exact le_trans h.1.1 (le_trans (le_of_lt h.1.2) (ih d.stop h.2))

theorem chainOK_start_lb (t : List Char) :
    ∀ (l : List Detection) (q : Nat), chainOK t q l = true →
      ∀ e ∈ l, q ≤ e.start := by
  intro l
  induction l with
  | nil => intro q _ e he; simp at he
  | cons d ds ih =>
    intro q h e he
    simp only [chainOK, Bool.and_eq_true, decide_eq_true_eq] at h
    rcases List.mem_cons.mp he with rfl | he2
    · exact h.1.1
    · exact le_trans h.1.1 (le_trans (le_of_lt h.1.2) (ih d.stop h.2 e he2))

theorem insertDesc_append (d : Detection) :
    ∀ l : List Detection, (∀ e ∈ l, ¬ e.start ≤ d.start) →
      insertDesc d l = l ++ [d] := by
  intro l
  induction l with
  | nil => intro _; rfl
  | cons e es ih =>
    intro h
    simp only [insertDesc]
    rw [if_neg (h e (List.mem_cons_self e es)),
      ih fun e2 he2 => h e2 (List.mem_cons_of_mem e he2)]
    rfl

theorem sortDesc_of_ascChain (t : List Char) :
    ∀ (l : List Detection) (q : Nat), chainOK t q l = true →
      sortDesc l = l.reverse := by
  intro l
  induction l with
  | nil => intro q _; rfl
  | cons d ds ih =>
    intro q h
    simp only [chainOK, Bool.and_eq_true, decide_eq_true_eq] at h
    simp only [sortDesc]
    rw [ih d.stop h.2]
    have hall : ∀ e ∈ ds.reverse, ¬ e.start ≤ d.start := by
      intro e he
      have he2 : e ∈ ds := List.mem_reverse.mp he
      have hlb := chainOK_start_lb t ds d.stop h.2 e he2
      have hlt := h.1.2
      omega
    rw [insertDesc_append d ds.reverse hall, List.reverse_cons]

theorem foldr_spliceStep_eq_onePass (keep : Bool) (t : List Char) :
    ∀ (asc : List Detection) (q : Nat), chainOK t q asc = true →
      asc.foldr (fun d acc => spliceStep keep acc d) t
        = t.take q ++ onePass keep t q asc := by
  intro asc
  induction asc with
  | nil =>
    intro q _
    simp [onePass]
  | cons d ds ih =>
    intro q h
    simp only [chainOK, Bool.and_eq_true, decide_eq_true_eq] at h
    have hstop : d.stop ≤ t.length := chainOK_le t ds d.stop h.2
    simp only [List.foldr_cons, onePass]
    rw [ih d.stop h.2]
    unfold spliceStep
    have hlenA : (t.take d.stop).length = d.stop := by
      rw [List.length_take]
      omega
    have htake : ∀ B : List Char,
        (t.take d.stop ++ B).take d.start = t.take d.start := by
      intro B
      rw [List.take_append_eq_append_take, hlenA,
        Nat.sub_eq_zero_of_le (le_of_lt h.1.2), List.take_zero,
        List.append_nil, List.take_take]
      congr 1
      omega
    have hdrop : ∀ B : List Char, (t.take d.stop ++ B).drop d.stop = B := by
      intro B
      rw [List.drop_append_eq_append_drop, hlenA, Nat.sub_self,
        List.drop_zero, List.drop_of_length_le (le_of_eq hlenA)]
      rfl
    rw [htake, hdrop]
    have hgap : t.take q ++ (t.drop q).take (d.start - q) = t.take d.start := by
      rw [← List.take_add]
      congr 1
      omega
    rw [← hgap]
    simp [List.append_assoc]

/-- C3: `normalize_text` splices `text[:start] + replacement + text[end:]`
over the detections sorted by start offset descending, the replacement
being the normalized form alone or `surface (normalized)` under
`keep_original`; and for overlap-free, in-bounds detections this sequential
reverse-order splicing equals applying every splice point computed against
the original offsets in one ascending pass (`onePass`). The first
conjunct states this for an arbitrary descending detection list `ds` (as
the spec phrases it), the second for `normalize_text` itself, whose
detector output `detect_slang` arrives in ascending offset order. -/
theorem rewrite_reverse_splice_eq_single_pass (keep : Bool)
    (text : List Char) (ds : List Detection) (dict : SlangDict)
    (tg : Option Tagger)
    (hds : chainOK text 0 ds.reverse = true)
    (hdet : chainOK text 0 (detect_slang dict tg text) = true) :
    (ds.foldl (spliceStep keep) text = onePass keep text 0 ds.reverse) ∧
    normalize_text dict tg keep text
      = (onePass keep text 0 (detect_slang dict tg text),
         detect_slang dict tg text) := by
  have key : ∀ asc : List Detection, chainOK text 0 asc = true →
      (asc.reverse).foldl (spliceStep keep) text
        = onePass keep text 0 asc := by
    intro asc hasc
    rw [List.foldl_reverse,
      foldr_spliceStep_eq_onePass keep text asc 0 hasc, List.take_zero,
      List.nil_append]
  constructor
  · have hk := key ds.reverse hds
    rwa [List.reverse_reverse] at hk
  · unfold normalize_text
    by_cases hde : (detect_slang dict tg text).isEmpty = true
    · have hnil := List.isEmpty_iff.mp hde
      simp [hde, hnil, onePass]
    · rw [Bool.not_eq_true] at hde
      simp only [hde, Bool.false_eq_true, if_false]
      rw [sortDesc_of_ascChain text (detect_slang dict tg text) 0 hdet,
        key (detect_slang dict tg text) hdet]

/-- Concrete text for the C3 witness. -/
def textW : List Char := "ngl good fr".data

/-- Concrete dictionary for the C3 witness. -/
def dictW : SlangDict :=
  [("ngl".data, ⟨some ("not gonna lie".data), none, none, []⟩),
   ("fr".data, ⟨some ("for real".data), none, none, []⟩)]

/-- Concrete tagger for the C3 witness, proposing two ascending spans. -/
def tagW : Tagger :=
  fun _ => .ok [⟨"ngl".data, 0, 3, 1⟩, ⟨"fr".data, 9, 11, 1⟩]

/-- A descending detection list for the C3 witness. -/
def dsW : List Detection :=
  [⟨"fr".data, 9, 11, "for real".data, "fr".data, 1⟩,
   ⟨"ngl".data, 0, 3, "not gonna lie".data, "ngl".data, 1⟩]

/-- Witness for C3 on `"ngl good fr"` with two overlap-free detections. -/
theorem rewrite_reverse_splice_eq_single_pass_witness :
    (dsW.foldl (spliceStep false) textW = onePass false textW 0 dsW.reverse) ∧
    normalize_text dictW (some tagW) false textW
      = (onePass false textW 0 (detect_slang dictW (some tagW) textW),
         detect_slang dictW (some tagW) textW) :=
  rewrite_reverse_splice_eq_single_pass false textW dsW dictW (some tagW)
    (by decide) (by decide)

end SocialMonkey
